import Mathlib

/-!
Verification of the ADOA estimator (`adoa.py`, class `ADOA`).

This file shallowly embeds the ADOA class over exact rationals:

* machine floats become `ℚ` (exact arithmetic); the only place where IEEE
  special values (NaN/inf from a zero denominator) are observable in the
  program's outputs is the per-row weight computation in
  `determine_trainset`, so the weight entries are modelled as `Option ℚ`
  with `none` standing for the NaN/inf produced by numpy division by zero
  (`npDiv`);
* the externally supplied capabilities (the fitted isolation forest's
  `decision_function`, the transcendental `np.exp`, and the downstream
  classifier) are uninterpreted function-valued fields of the `ADOA`
  state, as the specification declares them external black boxes;
* the mutation of `self.alpha` / `self.beta` inside `determine_trainset`
  is modelled by explicit state passing: the operation returns the
  training triple together with the successor state;
* Python exceptions (`np.min` of an empty array, `np.percentile` out of
  range, the `assert beta < alpha`) become `Except String` errors; numpy
  zero divisions (the weight formulas, the `__repr__` proportions on an
  empty unlabeled pool) do not raise but yield NaN/inf, modelled `none`.
-/

/-- Python value that is either the `'auto'` sentinel string or a number
(the constructor defaults `alpha='auto'`, `beta='auto'`, `n_clusters='auto'`).
`self.alpha == 'auto'` in Python is `True` exactly on the sentinel. -/
inductive PyNum where
  | auto : PyNum
  | num : ℚ → PyNum
deriving DecidableEq, Repr

/-- Training triple returned by `determine_trainset`:
`(X_train, y_train, weights)`.  Weight entries are `Option ℚ`; `none`
models the NaN/inf a numpy zero-denominator division produces. -/
abbrev TrainSet := List (List ℚ) × List ℤ × List (Option ℚ)

/-- np.min over a 1-D array; the `[]` case is junk (numpy raises there,
and every caller in this development guards emptiness). -/
def npMin : List ℚ → ℚ
  | [] => 0
  | x :: xs => xs.foldl min x

/-- np.max over a 1-D array; `[]` case is junk as in `npMin`. -/
def npMax : List ℚ → ℚ
  | [] => 0
  | x :: xs => xs.foldl max x

/-- np.mean of a 1-D array (`sum / len`). -/
def npMean (l : List ℚ) : ℚ := l.sum / (l.length : ℚ)

/-- numpy division of floats: a zero denominator yields NaN or inf,
modelled as `none`. -/
def npDiv (a b : ℚ) : Option ℚ := if b = 0 then none else some (a / b)

/-- sklearn `minmax_scale` on a 1-D array with the default feature range
(0, 1): `(x - min) / (max - min)`, where a zero range is replaced by 1 by
`_handle_zeros_in_scale` (so a constant array maps to all zeros). -/
def minmax_scale (xs : List ℚ) : List ℚ :=
  let mn := npMin xs
  let mx := npMax xs
  let scale := if mx - mn = 0 then 1 else mx - mn
  xs.map (fun x => (x - mn) / scale)

/-- np.percentile with the default linear interpolation, assuming a
nonempty input and `0 ≤ p ≤ 100` (callers check those): with the data
sorted ascending and `pos = (n-1)·p/100`, the result is
`sorted[⌊pos⌋] + (pos - ⌊pos⌋)·(sorted[⌊pos⌋+1] - sorted[⌊pos⌋])`. -/
def npPercentileCore (ws : List ℚ) (p : ℚ) : ℚ :=
  let sorted := List.insertionSort (fun a b => a ≤ b) ws
  let pos := ((ws.length : ℚ) - 1) * p / 100
  let i := Nat.floor pos
  let lo := sorted.getD i 0
  let hi := sorted.getD (i + 1) lo
  lo + (pos - (i : ℚ)) * (hi - lo)

/-- Error message numpy raises for a percentile outside [0, 100]. -/
def percentileRangeMsg : String := "Percentiles must be in the range [0, 100]"

/-- np.percentile including numpy's input checks: fails on an empty
array and on a percentile outside [0, 100] (this is the failure mode the
relaxation loop hits when the countdown skips 0 and goes negative). -/
def npPercentile (ws : List ℚ) (p : ℚ) : Except String ℚ :=
  if ws = [] then .error "zero-size array to reduction operation"
  else if p < 0 ∨ 100 < p then .error percentileRangeMsg
  else .ok (npPercentileCore ws p)

/-- np.median equals the linearly interpolated 50th percentile (middle
element for odd length, mean of the two middles for even length). -/
def npMedian (ws : List ℚ) : ℚ := npPercentileCore ws 50

/-- The ADOA estimator state after `__init__`.  `anomalies`/`unlabel`
hold the already standardized rows (the `StandardScaler` is an external
capability applied at construction), `centers`/`cluster_score` the output
of the external `get_cluster_centers`, and `iforestScore` / `expf` /
`classifer` / `clfProba` the external isolation forest decision function,
`np.exp`, and the supplied classifier's weighted `fit`+`predict` and
`fit`+`predict_proba`. -/
structure ADOA where
  anomalies : List (List ℚ)
  unlabel : List (List ℚ)
  classifer : List (List ℚ) → List ℤ → List (Option ℚ) → List (List ℚ) → List ℤ
  clfProba : List (List ℚ) → List ℤ → List (Option ℚ) → List (List ℚ) → List ℚ
  cluster_algo : String
  n_clusters : PyNum
  contamination : ℚ
  theta : ℚ
  alpha : PyNum
  beta : PyNum
  return_proba : Bool
  random_state : ℤ
  percent : ℚ
  gailv : ℚ
  centers : List (List ℚ)
  cluster_score : ℚ
  iforestScore : List (List ℚ) → List ℚ
  expf : ℚ → ℚ

/-- The joint dataset `np.r_[self.anomalies, self.unlabel]` used by
`cal_weighted_score` (line 59). -/
def dataset (s : ADOA) : List (List ℚ) := s.anomalies ++ s.unlabel

/-- Line 67: `isolation_score = -iforest.decision_function(dataset)`;
the fitted forest's decision function is the abstract field. -/
def isolation_score (s : ADOA) : List ℚ :=
  (s.iforestScore (dataset s)).map (fun x => -x)

/-- Line 68: `isolation_score_scaled = minmax_scale(isolation_score)`. -/
def isolation_score_scaled (s : ADOA) : List ℚ :=
  minmax_scale (isolation_score s)

/-- Squared Euclidean distance `np.square(arr - center).sum()`
(line 71). -/
def sqDistSum (arr center : List ℚ) : ℚ :=
  (List.zipWith (fun a c => (a - c) ^ 2) arr center).sum

/-- Minimum over cluster centers of the squared distance (line 71). -/
def minDistSq (arr : List ℚ) (centers : List (List ℚ)) : ℚ :=
  npMin (centers.map (sqDistSum arr))

/-- Lines 70-79: per-sample similarity score
`np.exp(-min_dist / len(arr))` (the division by the feature count is the
deliberate deviation documented in the source). -/
def cal_similarity_score (s : ADOA) (arr : List ℚ) : ℚ :=
  s.expf (-(minDistSq arr s.centers) / (arr.length : ℚ))

/-- Line 80: similarity scores of the whole joint dataset. -/
def similarity_score (s : ADOA) : List ℚ :=
  (dataset s).map (cal_similarity_score s)

/-- Line 81: `similarity_score_scaled = minmax_scale(similarity_score)`. -/
def similarity_score_scaled (s : ADOA) : List ℚ :=
  minmax_scale (similarity_score s)

/-- Lines 58-88, `ADOA.cal_weighted_score`: the fused score
`theta * isolation_score_scaled + (1-theta) * similarity_score_scaled`. -/
def cal_weighted_score (s : ADOA) : List ℚ :=
  List.zipWith (fun a b => s.theta * a + (1 - s.theta) * b)
    (isolation_score_scaled s) (similarity_score_scaled s)

/-- Line 98: resolution of `self.alpha`:
`((np.mean(anomalies_score)+min_score)/2)*self.gailv if self.alpha == 'auto'
else self.alpha`, with `anomalies_score = weighted_score[:len(anomalies)]`.  -/
def resolveAlpha (alphaIn : PyNum) (ws : List ℚ) (aLen : ℕ) (gailv : ℚ) : ℚ :=
  match alphaIn with
  | .auto => ((npMean (ws.take aLen) + npMin ws) / 2) * gailv
  | .num a => a

/-- Lines 100-106, the percentile relaxation `while` loop:
`while beta >= alpha: percent -= 5; if percent == 0: beta = alpha*0.9;
break; beta = np.percentile(weighted_score, percent)`.
The loop terminates because each iteration lowers `percent` by 5, and an
iteration recurses only after `npPercentile` succeeded, which forces the
decremented percent to be positive (a negative percent makes
`npPercentile` raise, ending the loop with that error). -/
def betaLoop (ws : List ℚ) (alpha percent beta : ℚ) : Except String ℚ :=
  if beta ≥ alpha then
    if hz : percent - 5 = 0 then .ok (alpha * (9 / 10))
    else
      match hp : npPercentile ws (percent - 5) with
      | .error e => .error e
      | .ok b2 => betaLoop ws alpha (percent - 5) b2
  else .ok beta
termination_by (Int.floor percent).toNat
decreasing_by
  simp only [npPercentile] at hp
  split at hp
  · exact absurd hp (by simp)
  · split at hp
    · exact absurd hp (by simp)
    · rename_i hrange
      push_neg at hrange
      have h0 : (0:ℚ) ≤ percent - 5 := hrange.1
      have hfl : Int.floor percent = Int.floor (percent - 5) + 5 := by
        have h5 : percent - 5 + ((5:ℤ) : ℚ) = percent := by push_cast; ring
        calc Int.floor percent = Int.floor ((percent - 5) + ((5:ℤ) : ℚ)) := by rw [h5]
          _ = Int.floor (percent - 5) + 5 := Int.floor_add_int _ _
      have hnn : 0 ≤ Int.floor (percent - 5) := Int.floor_nonneg.mpr h0
      omega

/-- Lines 99-106: the initial beta
(`median_score if median_score < self.alpha else
np.percentile(weighted_score, percent)` — note this never consults the
configured `self.beta`) followed by the relaxation loop. -/
def betaDerive (ws : List ℚ) (alpha percent : ℚ) : Except String ℚ :=
  if npMedian ws < alpha then
    betaLoop ws alpha percent (npMedian ws)
  else
    match npPercentile ws percent with
    | .error e => .error e
    | .ok b0 => betaLoop ws alpha percent b0

/-- Lines 96-107: threshold derivation of `determine_trainset`, ending
with `assert self.beta < self.alpha, 'beta should be smaller than alpha.'`. -/
def thresholds (ws : List ℚ) (aLen : ℕ) (alphaIn : PyNum) (percent gailv : ℚ) :
    Except String (ℚ × ℚ) :=
  let A := resolveAlpha alphaIn ws aLen gailv
  match betaDerive ws A percent with
  | .error e => .error e
  | .ok B => if B < A then .ok (A, B) else .error "beta should be smaller than alpha."

/-- Lines 110-126: the partition of the unlabeled pool by the resolved
thresholds and the assembly of `(X_train, y_train, weights)`.
`ptt` are the unlabeled rows with `score >= alpha` (labelled 1, weight
`score/max_score`), `rlb` those with `score <= beta` (labelled 0, weight
`(max_score-score)/(max_score-min_score)`), known anomalies keep weight 1. -/
def buildTrainset (anomalies unlabel : List (List ℚ)) (ws : List ℚ) (A B : ℚ) :
    TrainSet :=
  let min_score := npMin ws
  let max_score := npMax ws
  let unlabel_scores := ws.drop anomalies.length
  let pairs := unlabel.zip unlabel_scores
  let ptt := pairs.filter (fun q => decide (A ≤ q.2))
  let rlb := pairs.filter (fun q => decide (q.2 ≤ B))
  let X_train := anomalies ++ ptt.map Prod.fst ++ rlb.map Prod.fst
  let y_train : List ℤ :=
    List.replicate anomalies.length 1 ++ List.replicate ptt.length 1 ++
      List.replicate rlb.length 0
  let weights : List (Option ℚ) :=
    List.replicate anomalies.length (some 1) ++
      ptt.map (fun q => npDiv q.2 max_score) ++
      rlb.map (fun q => npDiv (max_score - q.2) (max_score - min_score))
  (X_train, y_train, weights)

/-- Lines 90-126, `ADOA.determine_trainset`.  `np.min` of line 92 raises
on an empty score array; otherwise the thresholds are derived
(mutating `self.alpha` and `self.beta`, modelled as the returned
successor state) and the training triple is assembled. -/
def determine_trainset (s : ADOA) : Except String (TrainSet × ADOA) :=
  let ws := cal_weighted_score s
  if ws = [] then
    .error "zero-size array to reduction operation minimum which has no identity"
  else
    match thresholds ws s.anomalies.length s.alpha s.percent s.gailv with
    | .error e => .error e
    | .ok (A, B) =>
      .ok (buildTrainset s.anomalies s.unlabel ws A B,
           { s with alpha := .num A, beta := .num B })

/-- Lines 128-137, `ADOA.predict`: derive the training set, hand it to
the external classifier, optionally also return the positive-class
probabilities. -/
def predict (s : ADOA) : Except String ((List ℤ × Option (List ℚ)) × ADOA) :=
  match determine_trainset s with
  | .error e => .error e
  | .ok ((X, y, w), s2) =>
    let y_pred := s2.classifer X y w s2.unlabel
    if s2.return_proba then
      .ok ((y_pred, some (s2.clfProba X y w s2.unlabel)), s2)
    else .ok ((y_pred, none), s2)

/-- Lines 139-153, `ADOA.__repr__`, reduced to the numbers it formats:
the cluster count and quality score, the reliable-normal count
`np.sum(y_train==0)` with its share of the unlabeled pool, and the
potential-anomaly count `sum(y_train)-len(self.anomalies)` with its
share.  The counts are numpy scalars, so on an empty unlabeled pool the
share divisions are numpy zero divisions: they warn and yield nan/inf
(modelled `none` by `npDiv`) and `__repr__` still completes. -/
def reprCounts (s : ADOA) :
    Except String (((ℕ × ℚ) × (ℕ × Option ℚ) × (ℤ × Option ℚ)) × ADOA) :=
  match determine_trainset s with
  | .error e => .error e
  | .ok ((_, y, _), s2) =>
    let rll_num := (y.filter (fun v => decide (v = 0))).length
    let ptt_num : ℤ := y.sum - (s2.anomalies.length : ℤ)
    .ok (((s2.centers.length, s2.cluster_score),
          (rll_num, npDiv (rll_num : ℚ) (s2.unlabel.length : ℚ)),
          (ptt_num, npDiv (ptt_num : ℚ) (s2.unlabel.length : ℚ))), s2)

/-- Alpha threshold exactly as the specification words it:
"computed as `((mean(anomaly_scores) + min(all_scores)) / 2) × scale_factor`". -/
def specAlpha (anomaly_scores all_scores : List ℚ) (scale_factor : ℚ) : ℚ :=
  ((npMean anomaly_scores + npMin all_scores) / 2) * scale_factor

/-- Beta relaxation exactly as the specification words it: "while β ≥ α,
decrease the percentile by 5 and recompute β from that percentile; if
percentile reaches 0 before β < α, force β = 0.9·α and stop". -/
def specBetaLoop (all_scores : List ℚ) (alpha percentile beta : ℚ) : Except String ℚ :=
  if alpha ≤ beta then
    if hz : percentile - 5 = 0 then .ok ((9 / 10) * alpha)
    else
      match hp : npPercentile all_scores (percentile - 5) with
      | .error e => .error e
      | .ok b2 => specBetaLoop all_scores alpha (percentile - 5) b2
  else .ok beta
termination_by (Int.floor percentile).toNat
decreasing_by
  simp only [npPercentile] at hp
  split at hp
  · exact absurd hp (by simp)
  · split at hp
    · exact absurd hp (by simp)
    · rename_i hrange
      push_neg at hrange
      have h0 : (0:ℚ) ≤ percentile - 5 := hrange.1
      have hfl : Int.floor percentile = Int.floor (percentile - 5) + 5 := by
        have h5 : percentile - 5 + ((5:ℤ) : ℚ) = percentile := by push_cast; ring
        calc Int.floor percentile
            = Int.floor ((percentile - 5) + ((5:ℤ) : ℚ)) := by rw [h5]
          _ = Int.floor (percentile - 5) + 5 := Int.floor_add_int _ _
      have hnn : 0 ≤ Int.floor (percentile - 5) := Int.floor_nonneg.mpr h0
      omega

/-- Beta derivation exactly as the specification words it: "start from the
median of all scores if median < α; otherwise start from a percentile of
all scores", then the relaxation loop. -/
def specBetaDerive (all_scores : List ℚ) (alpha percentile : ℚ) : Except String ℚ :=
  if npMedian all_scores < alpha then
    specBetaLoop all_scores alpha percentile (npMedian all_scores)
  else
    match npPercentile all_scores percentile with
    | .error e => .error e
    | .ok b0 => specBetaLoop all_scores alpha percentile b0

/-! Concrete estimator states used by the witnesses and counterexamples.
The external capabilities are instantiated with concrete functions. -/

/-- Shared scaffold for the concrete example states. -/
def exBase : ADOA where
  anomalies := [[0]]
  unlabel := [[1], [2], [3]]
  classifer := fun _ _ _ u => List.replicate u.length 0
  clfProba := fun _ _ _ u => List.replicate u.length 0
  cluster_algo := "kmeans"
  n_clusters := PyNum.num 5
  contamination := 1 / 100
  theta := 1
  alpha := PyNum.auto
  beta := PyNum.auto
  return_proba := false
  random_state := 2018
  percent := 45
  gailv := 1
  centers := [[0]]
  cluster_score := 0
  iforestScore := fun _ => [-1, -1/2, 0, -9/20]
  expf := fun _ => 1

/-- Main witness state: 2 anomaly rows, 3 unlabeled rows, θ = 0.85, auto
thresholds; the isolation forest stub yields weighted scores
`[17/20, 51/80, 17/40, 17/80, 0]`. -/
def exMain : ADOA :=
  { exBase with
    anomalies := [[0], [1]]
    unlabel := [[2], [3], [4]]
    theta := 17/20
    iforestScore := fun _ => [-1, -3/4, -1/2, -1/4, 0]
    expf := fun _ => 1/2 }

/-- The state `exMain` reaches after `determine_trainset`: α = 119/320,
β = 17/50 get cached. -/
def exMain2 : ADOA :=
  { exMain with alpha := PyNum.num (119/320), beta := PyNum.num (17/50) }

/-- Training triple `determine_trainset` returns on `exMain`. -/
def exTrain : TrainSet :=
  ([[0], [1], [2], [3], [4]], [1, 1, 1, 0, 0],
   [some 1, some 1, some (1/2), some (3/4), some 1])

/-- State with manually configured thresholds α = 0.8 and β = 0.2
(scores `[1, 1/2, 0, 9/20]`): exhibits that the configured β is ignored. -/
def exManualBeta : ADOA :=
  { exBase with alpha := PyNum.num (4/5), beta := PyNum.num (1/5) }

/-- State whose weighted scores are all zero with auto thresholds: the
derived α is 0, the relaxation fallback sets β = 0.9·0 = 0, and the
`beta < alpha` assertion fires. -/
def exAllZero : ADOA :=
  { exBase with unlabel := [[1], [2]], iforestScore := fun _ => [0, 0, 0] }

/-- State whose weighted scores are all zero but with manual α = 1/2:
`determine_trainset` completes and the reliable-normal weight computation
divides by `max_score - min_score = 0`, producing a NaN weight. -/
def exNanWeight : ADOA :=
  { exBase with
    unlabel := [[1]]
    iforestScore := fun _ => [0, 0]
    alpha := PyNum.num (1/2) }

/-- State with an empty unlabeled pool: `determine_trainset` completes
silently (no input validation), returning an anomalies-only training set. -/
def exEmptyUnlabel : ADOA :=
  { exBase with
    anomalies := [[0], [1]]
    unlabel := []
    iforestScore := fun _ => [-1, 0] }

/-! Basic facts about the numpy helpers. -/

theorem foldl_min_le_init (l : List ℚ) (a : ℚ) : l.foldl min a ≤ a := by
  induction l generalizing a with
  | nil => exact le_rfl
  | cons x xs ih => exact le_trans (ih (min a x)) (min_le_left a x)

theorem foldl_min_le_mem {x : ℚ} (l : List ℚ) (a : ℚ) (h : x ∈ l) :
    l.foldl min a ≤ x := by
  induction l generalizing a with
  | nil => cases h
  | cons y ys ih =>
    rcases List.mem_cons.mp h with rfl | hy
    · exact le_trans (foldl_min_le_init ys (min a x)) (min_le_right a x)
    · exact ih (min a y) hy

theorem init_le_foldl_max (l : List ℚ) (a : ℚ) : a ≤ l.foldl max a := by
  induction l generalizing a with
  | nil => exact le_rfl
  | cons x xs ih => exact le_trans (le_max_left a x) (ih (max a x))

theorem mem_le_foldl_max {x : ℚ} (l : List ℚ) (a : ℚ) (h : x ∈ l) :
    x ≤ l.foldl max a := by
  induction l generalizing a with
  | nil => cases h
  | cons y ys ih =>
    rcases List.mem_cons.mp h with rfl | hy
    · exact le_trans (le_max_right a x) (init_le_foldl_max ys (max a x))
    · exact ih (max a y) hy

theorem npMin_le_mem {x : ℚ} {l : List ℚ} (h : x ∈ l) : npMin l ≤ x := by
  match l with
  | [] => cases h
  | y :: ys =>
    rw [npMin]
    rcases List.mem_cons.mp h with rfl | hy
    · exact foldl_min_le_init ys x
    · exact foldl_min_le_mem ys y hy

theorem mem_le_npMax {x : ℚ} {l : List ℚ} (h : x ∈ l) : x ≤ npMax l := by
  match l with
  | [] => cases h
  | y :: ys =>
    rw [npMax]
    rcases List.mem_cons.mp h with rfl | hy
    · exact init_le_foldl_max ys x
    · exact mem_le_foldl_max ys y hy

theorem npMin_le_npMax {l : List ℚ} (h : l ≠ []) : npMin l ≤ npMax l := by
  match l with
  | [] => exact absurd rfl h
  | y :: ys =>
    exact le_trans (npMin_le_mem (List.mem_cons_self y ys))
      (mem_le_npMax (List.mem_cons_self y ys))

theorem minmax_scale_length (xs : List ℚ) : (minmax_scale xs).length = xs.length := by
  simp [minmax_scale]

/-- Every component a sklearn min-max rescaling produces lies in [0, 1]:
in the nondegenerate case because the data lies between its min and max,
in the constant case because `_handle_zeros_in_scale` maps everything
to 0. -/
theorem mem_minmax_scale_bounds {y : ℚ} {xs : List ℚ} (h : y ∈ minmax_scale xs) :
    0 ≤ y ∧ y ≤ 1 := by
  simp only [minmax_scale, List.mem_map] at h
  obtain ⟨x, hx, rfl⟩ := h
  have hmin : npMin xs ≤ x := npMin_le_mem hx
  have hmax : x ≤ npMax xs := mem_le_npMax hx
  by_cases hz : npMax xs - npMin xs = 0
  · have hxx : x = npMin xs := le_antisymm (by linarith) hmin
    rw [if_pos hz, hxx]
    norm_num
  · rw [if_neg hz]
    have hlt : 0 < npMax xs - npMin xs :=
      lt_of_le_of_ne (by linarith) (Ne.symm hz)
    constructor
    · exact div_nonneg (by linarith) hlt.le
    · rw [div_le_one hlt]
      linarith

theorem mem_zipWith {γ : Type} {f : ℚ → ℚ → γ} {x : γ} :
    ∀ {l₁ l₂ : List ℚ}, x ∈ List.zipWith f l₁ l₂ →
      ∃ a ∈ l₁, ∃ b ∈ l₂, x = f a b := by
  intro l₁
  induction l₁ with
  | nil => intro l₂ h; cases h
  | cons a as ih =>
    intro l₂ h
    match l₂ with
    | [] => cases h
    | b :: bs =>
      rcases List.mem_cons.mp h with rfl | hx
      · exact ⟨a, List.mem_cons_self a as, b, List.mem_cons_self b bs, rfl⟩
      · obtain ⟨a', ha', b', hb', rfl⟩ := ih hx
        exact ⟨a', List.mem_cons_of_mem a ha', b', List.mem_cons_of_mem b hb', rfl⟩

/-- Every weighted score is a θ-blend of the two rescaled sub-scores, so
with θ ∈ [0, 1] it lies in [0, 1] as well. -/
theorem cal_weighted_score_bounds {s : ADOA} {x : ℚ}
    (h0 : 0 ≤ s.theta) (h1 : s.theta ≤ 1) (hx : x ∈ cal_weighted_score s) :
    0 ≤ x ∧ x ≤ 1 := by
  obtain ⟨a, ha, b, hb, rfl⟩ := mem_zipWith hx
  obtain ⟨ha0, ha1⟩ := mem_minmax_scale_bounds ha
  obtain ⟨hb0, hb1⟩ := mem_minmax_scale_bounds hb
  constructor
  · have := mul_nonneg h0 ha0
    have := mul_nonneg (by linarith : (0:ℚ) ≤ 1 - s.theta) hb0
    linarith
  · have h2 : s.theta * a ≤ s.theta * 1 := by
      exact mul_le_mul_of_nonneg_left ha1 h0
    have h3 : (1 - s.theta) * b ≤ (1 - s.theta) * 1 := by
      exact mul_le_mul_of_nonneg_left hb1 (by linarith)
    linarith

/-! Facts about `npPercentile`. -/

theorem npPercentile_ok {ws : List ℚ} {p b : ℚ} (h : npPercentile ws p = .ok b) :
    ws ≠ [] ∧ 0 ≤ p ∧ p ≤ 100 ∧ b = npPercentileCore ws p := by
  simp only [npPercentile] at h
  split at h
  · cases h
  · split at h
    · cases h
    · rename_i hne hrange
      push_neg at hrange
      cases h
      exact ⟨hne, hrange.1, hrange.2, rfl⟩

theorem npPercentile_ok_of {ws : List ℚ} {p : ℚ} (hne : ws ≠ []) (h0 : 0 ≤ p)
    (h1 : p ≤ 100) : npPercentile ws p = .ok (npPercentileCore ws p) := by
  rw [npPercentile, if_neg hne, if_neg (by push_neg; exact ⟨h0, h1⟩)]

theorem npPercentile_neg {ws : List ℚ} {p : ℚ} (hne : ws ≠ []) (h0 : p < 0) :
    npPercentile ws p = .error percentileRangeMsg := by
  rw [npPercentile, if_neg hne, if_pos (Or.inl h0)]

/-- The interpolation index `⌊(n-1)·p/100⌋₊` stays inside the sorted
array for `0 ≤ p ≤ 100`. -/
theorem percentile_index_lt {n : ℕ} {p : ℚ} (hn : 1 ≤ n) (_h0 : 0 ≤ p)
    (h1 : p ≤ 100) : Nat.floor (((n : ℚ) - 1) * p / 100) < n := by
  have hpos : (0:ℚ) ≤ ((n : ℚ) - 1) := by
    have : (1:ℚ) ≤ (n : ℚ) := by exact_mod_cast hn
    linarith
  have hle : ((n : ℚ) - 1) * p / 100 ≤ ((n : ℚ) - 1) := by
    rw [div_le_iff₀ (by norm_num : (0:ℚ) < 100)]
    nlinarith
  have hcast : ((n : ℚ) - 1) = ((n - 1 : ℕ) : ℚ) := by
    have : (1:ℚ) ≤ (n : ℚ) := by exact_mod_cast hn
    push_cast [Nat.cast_sub hn]
    ring
  have := Nat.floor_le_floor (le_trans (le_of_eq rfl) hle)
  calc Nat.floor (((n : ℚ) - 1) * p / 100) ≤ Nat.floor (((n : ℚ) - 1)) := this
    _ = n - 1 := by rw [hcast, Nat.floor_natCast]
    _ < n := by omega

/-- A percentile of a nonempty array is at least its minimum. -/
theorem npMin_le_npPercentileCore {ws : List ℚ} {p : ℚ} (hne : ws ≠ [])
    (h0 : 0 ≤ p) (h1 : p ≤ 100) : npMin ws ≤ npPercentileCore ws p := by
  rw [npPercentileCore]
  set srt := List.insertionSort (fun a b => a ≤ b) ws with hsrt
  have hperm : List.Perm srt ws := List.perm_insertionSort _ ws
  have hlen : srt.length = ws.length := hperm.length_eq
  have hsorted : srt.Sorted (fun a b => a ≤ b) := List.sorted_insertionSort _ ws
  have hn : 1 ≤ ws.length := by
    cases ws with
    | nil => exact absurd rfl hne
    | cons a l => simp
  set pos := ((ws.length : ℚ) - 1) * p / 100 with hpos
  have hposnn : 0 ≤ pos := by
    have : (1:ℚ) ≤ (ws.length : ℚ) := by exact_mod_cast hn
    have h100 : (0:ℚ) < 100 := by norm_num
    exact div_nonneg (mul_nonneg (by linarith) h0) h100.le
  set i := Nat.floor pos with hi
  have hilt : i < srt.length := by
    rw [hlen]; exact percentile_index_lt hn h0 h1
  have hfrac0 : 0 ≤ pos - (i : ℚ) := by
    have := Nat.floor_le hposnn
    linarith
  have hlo : srt.getD i 0 = srt.get ⟨i, hilt⟩ := by
    rw [List.getD_eq_getElem?_getD, List.getElem?_eq_getElem hilt]
    rfl
  have hlomem : srt.get ⟨i, hilt⟩ ∈ ws := hperm.subset (srt.get_mem _ _)
  have hlomin : npMin ws ≤ srt.get ⟨i, hilt⟩ := npMin_le_mem hlomem
  by_cases hnext : i + 1 < srt.length
  · have hhi : srt.getD (i + 1) (srt.getD i 0) = srt.get ⟨i + 1, hnext⟩ := by
      rw [List.getD_eq_getElem?_getD srt (i + 1) (srt.getD i 0),
        List.getElem?_eq_getElem hnext]
      rfl
    have hmono : srt.get ⟨i, hilt⟩ ≤ srt.get ⟨i + 1, hnext⟩ := by
      exact hsorted.rel_get_of_lt (by simp [Fin.lt_def])
    rw [hhi, hlo]
    nlinarith
  · have hhi : srt.getD (i + 1) (srt.getD i 0) = srt.getD i 0 := by
      rw [List.getD_eq_getElem?_getD srt (i + 1) (srt.getD i 0),
        List.getElem?_eq_none (by omega)]
      rfl
    rw [hhi, hlo]
    nlinarith

/-- A percentile of a constant array is the constant, whatever the
(admissible) percentile. -/
theorem npPercentileCore_const {ws : List ℚ} {c p : ℚ} (hne : ws ≠ [])
    (hc : ∀ x ∈ ws, x = c) (h0 : 0 ≤ p) (h1 : p ≤ 100) :
    npPercentileCore ws p = c := by
  rw [npPercentileCore]
  set srt := List.insertionSort (fun a b => a ≤ b) ws with hsrt
  have hperm : List.Perm srt ws := List.perm_insertionSort _ ws
  have hlen : srt.length = ws.length := hperm.length_eq
  have hn : 1 ≤ ws.length := by
    cases ws with
    | nil => exact absurd rfl hne
    | cons a l => simp
  set pos := ((ws.length : ℚ) - 1) * p / 100 with hpos
  set i := Nat.floor pos with hi
  have hilt : i < srt.length := by
    rw [hlen]; exact percentile_index_lt hn h0 h1
  have hlo : srt.getD i 0 = c := by
    rw [List.getD_eq_getElem?_getD, List.getElem?_eq_getElem hilt]
    exact hc _ (hperm.subset (srt.get_mem _ _))
  by_cases hnext : i + 1 < srt.length
  · have hhi : srt.getD (i + 1) (srt.getD i 0) = c := by
      rw [List.getD_eq_getElem?_getD srt (i + 1) (srt.getD i 0),
        List.getElem?_eq_getElem hnext]
      exact hc _ (hperm.subset (srt.get_mem _ _))
    rw [hhi, hlo]
    ring
  · have hhi : srt.getD (i + 1) (srt.getD i 0) = srt.getD i 0 := by
      rw [List.getD_eq_getElem?_getD srt (i + 1) (srt.getD i 0),
        List.getElem?_eq_none (by omega)]
      rfl
    rw [hhi, hlo]
    ring

/-- Linear interpolation on a sorted two-element array. -/
theorem npPercentileCore_pair {a b p : ℚ} (hab : a ≤ b) (_h0 : 0 ≤ p)
    (h1 : p < 100) : npPercentileCore [a, b] p = a + p / 100 * (b - a) := by
  have hfl : Nat.floor (p / 100) = 0 := by
    rw [Nat.floor_eq_zero]
    rw [div_lt_one (by norm_num : (0:ℚ) < 100)]
    linarith
  rw [npPercentileCore]
  simp only [List.insertionSort, List.orderedInsert, if_pos hab, List.length_cons,
    List.length_nil]
  norm_num [hfl, List.getD]

/-! Unfolding lemmas for the relaxation loop, mirroring its three exits
(loop-condition false, fallback at percent 0, percentile failure) and its
recursion step. -/

theorem betaLoop_exit {ws : List ℚ} {A percent beta : ℚ} (h : beta < A) :
    betaLoop ws A percent beta = .ok beta := by
  rw [betaLoop, if_neg (not_le.mpr h)]

theorem betaLoop_fallback {ws : List ℚ} {A percent beta : ℚ} (h : beta ≥ A)
    (hz : percent - 5 = 0) : betaLoop ws A percent beta = .ok (A * (9 / 10)) := by
  rw [betaLoop, if_pos h, dif_pos hz]

theorem betaLoop_step {ws : List ℚ} {A percent beta c : ℚ} (h : beta ≥ A)
    (hz : percent - 5 ≠ 0) (hc : npPercentile ws (percent - 5) = .ok c) :
    betaLoop ws A percent beta = betaLoop ws A (percent - 5) c := by
  rw [betaLoop, if_pos h, dif_neg hz]
  split
  · rename_i e he
    rw [hc] at he
    cases he
  · rename_i b2 hb2
    rw [hc] at hb2
    cases hb2
    rfl

theorem betaLoop_step_err {ws : List ℚ} {A percent beta : ℚ} {e : String}
    (h : beta ≥ A) (hz : percent - 5 ≠ 0)
    (hc : npPercentile ws (percent - 5) = .error e) :
    betaLoop ws A percent beta = .error e := by
  rw [betaLoop, if_pos h, dif_neg hz]
  split
  · rename_i e' he
    rw [hc] at he
    cases he
    rfl
  · rename_i b2 hb2
    rw [hc] at hb2
    cases hb2

/-- On a positive multiple of 5 the relaxation loop always terminates
without an exception: either some percentile drops below alpha, or the
countdown hits 0 exactly and the fallback yields `0.9·alpha`. -/
theorem betaLoop_mult5 {ws : List ℚ} (A : ℚ) (hne : ws ≠ []) :
    ∀ (k : ℕ) (beta : ℚ), 5 * ((k : ℚ) + 1) ≤ 100 →
      ∃ b, betaLoop ws A (5 * ((k : ℚ) + 1)) beta = .ok b ∧
        (b < A ∨ b = A * (9 / 10)) := by
  intro k
  induction k with
  | zero =>
    intro beta _
    by_cases hba : A ≤ beta
    · exact ⟨A * (9 / 10), betaLoop_fallback hba (by norm_num), Or.inr rfl⟩
    · exact ⟨beta, betaLoop_exit (not_le.mp hba), Or.inl (not_le.mp hba)⟩
  | succ k ih =>
    intro beta h100
    by_cases hba : A ≤ beta
    · have hp2 : 5 * (((k + 1 : ℕ) : ℚ) + 1) - 5 = 5 * ((k : ℚ) + 1) := by
        push_cast; ring
      have hpos : (0:ℚ) < 5 * ((k : ℚ) + 1) := by positivity
      have hz : 5 * (((k + 1 : ℕ) : ℚ) + 1) - 5 ≠ 0 := by
        rw [hp2]; exact ne_of_gt hpos
      have hle : 5 * ((k : ℚ) + 1) ≤ 100 := by
        have : ((k : ℚ)) ≤ ((k : ℚ)) + 1 := by linarith
        push_cast at h100 ⊢
        linarith
      have hc : npPercentile ws (5 * (((k + 1 : ℕ) : ℚ) + 1) - 5) =
          .ok (npPercentileCore ws (5 * ((k : ℚ) + 1))) := by
        rw [hp2]
        exact npPercentile_ok_of hne hpos.le hle
      obtain ⟨b, hb, hcase⟩ := ih (npPercentileCore ws (5 * ((k : ℚ) + 1))) hle
      refine ⟨b, ?_, hcase⟩
      rw [betaLoop_step hba hz hc, hp2]
      exact hb
    · exact ⟨beta, betaLoop_exit (not_le.mp hba), Or.inl (not_le.mp hba)⟩

/-- When every score is at least alpha, a multiple-of-5 countdown relaxes
all the way down and returns the `0.9·alpha` fallback. -/
theorem betaLoop_mult5_high {ws : List ℚ} (A : ℚ) (hne : ws ≠ [])
    (hmin : A ≤ npMin ws) :
    ∀ (k : ℕ) (beta : ℚ), 5 * ((k : ℚ) + 1) ≤ 100 → A ≤ beta →
      betaLoop ws A (5 * ((k : ℚ) + 1)) beta = .ok (A * (9 / 10)) := by
  intro k
  induction k with
  | zero =>
    intro beta _ hba
    exact betaLoop_fallback hba (by norm_num)
  | succ k ih =>
    intro beta h100 hba
    have hp2 : 5 * (((k + 1 : ℕ) : ℚ) + 1) - 5 = 5 * ((k : ℚ) + 1) := by
      push_cast; ring
    have hpos : (0:ℚ) < 5 * ((k : ℚ) + 1) := by positivity
    have hz : 5 * (((k + 1 : ℕ) : ℚ) + 1) - 5 ≠ 0 := by
      rw [hp2]; exact ne_of_gt hpos
    have hle : 5 * ((k : ℚ) + 1) ≤ 100 := by
      push_cast at h100 ⊢
      linarith
    have hc : npPercentile ws (5 * (((k + 1 : ℕ) : ℚ) + 1) - 5) =
        .ok (npPercentileCore ws (5 * ((k : ℚ) + 1))) := by
      rw [hp2]
      exact npPercentile_ok_of hne hpos.le hle
    have hnext : A ≤ npPercentileCore ws (5 * ((k : ℚ) + 1)) :=
      le_trans hmin (npMin_le_npPercentileCore hne hpos.le hle)
    rw [betaLoop_step hba hz hc, hp2]
    exact ih _ hle hnext

/-- When the starting percent is not a multiple of 5 (so the countdown
skips 0) and every score stays at least alpha, the loop walks past zero
and calls `np.percentile` with a negative percentile, which raises. -/
theorem betaLoop_nonmult {ws : List ℚ} {A : ℚ} (hne : ws ≠ [])
    (hmin : A ≤ npMin ws) :
    ∀ (percent beta : ℚ), (∀ j : ℕ, percent ≠ 5 * (j : ℚ)) → percent ≤ 100 →
      A ≤ beta → betaLoop ws A percent beta = .error percentileRangeMsg := by
  intro percent beta
  induction percent, beta using betaLoop.induct ws A with
  | case1 percent beta hba hz =>
    intro hnm _ _
    exfalso
    exact hnm 1 (by push_cast; linarith)
  | case2 percent beta hba hz e he =>
    intro hnm h100 _
    have hneg : percent - 5 < 0 := by
      by_contra hc
      push_neg at hc
      rcases eq_or_lt_of_le hc with h | h
      · exact hz h.symm
      · rw [npPercentile_ok_of hne h.le (by linarith)] at he
        cases he
    have hmsg := npPercentile_neg hne hneg
    rw [betaLoop_step_err hba hz he]
    rw [he] at hmsg
    cases hmsg
    rfl
  | case3 percent beta hba hz b2 hb2 ih =>
    intro hnm h100 _
    obtain ⟨_, hp0, hp100, rfl⟩ := npPercentile_ok hb2
    have hnm2 : ∀ j : ℕ, percent - 5 ≠ 5 * (j : ℚ) := by
      intro j hj
      exact hnm (j + 1) (by push_cast; linarith)
    have hb2A : A ≤ npPercentileCore ws (percent - 5) :=
      le_trans hmin (npMin_le_npPercentileCore hne hp0 hp100)
    rw [betaLoop_step hba hz hb2]
    exact ih hnm2 (by linarith) hb2A
  | case4 percent beta hba =>
    intro _ _ hA
    exact absurd hA hba

/-! Inversion and restart lemmas for `determine_trainset`. -/

theorem thresholds_ok {ws : List ℚ} {aLen : ℕ} {aIn : PyNum} {percent gailv A B : ℚ}
    (h : thresholds ws aLen aIn percent gailv = .ok (A, B)) :
    resolveAlpha aIn ws aLen gailv = A ∧ betaDerive ws A percent = .ok B ∧ B < A := by
  rw [thresholds] at h
  split at h
  · cases h
  · rename_i B' hB'
    split at h
    · rename_i hlt
      cases h
      exact ⟨rfl, hB', hlt⟩
    · cases h

theorem thresholds_ok_of {ws : List ℚ} {aLen : ℕ} {aIn : PyNum} {percent gailv A B : ℚ}
    (hA : resolveAlpha aIn ws aLen gailv = A)
    (hB : betaDerive ws A percent = .ok B) (hBA : B < A) :
    thresholds ws aLen aIn percent gailv = .ok (A, B) := by
  rw [thresholds, hA]
  split
  · rename_i e he
    rw [hB] at he
    cases he
  · rename_i B' hB'
    rw [hB] at hB'
    cases hB'
    rw [if_pos hBA]

theorem determine_trainset_ok {s : ADOA} {t : TrainSet} {s' : ADOA}
    (h : determine_trainset s = .ok (t, s')) :
    cal_weighted_score s ≠ [] ∧ ∃ A B,
      thresholds (cal_weighted_score s) s.anomalies.length s.alpha s.percent s.gailv
          = .ok (A, B) ∧
      t = buildTrainset s.anomalies s.unlabel (cal_weighted_score s) A B ∧
      s' = { s with alpha := .num A, beta := .num B } := by
  rw [determine_trainset] at h
  split at h
  · cases h
  · rename_i hne
    split at h
    · cases h
    · rename_i A B hth
      cases h
      exact ⟨hne, A, B, hth, rfl, rfl⟩

theorem determine_trainset_ok_of {s : ADOA} {A B : ℚ}
    (hne : cal_weighted_score s ≠ [])
    (hth : thresholds (cal_weighted_score s) s.anomalies.length s.alpha s.percent s.gailv
      = .ok (A, B)) :
    determine_trainset s =
      .ok (buildTrainset s.anomalies s.unlabel (cal_weighted_score s) A B,
        { s with alpha := .num A, beta := .num B }) := by
  rw [determine_trainset]
  rw [if_neg hne]
  split
  · rename_i e he
    rw [hth] at he
    cases he
  · rename_i AB hAB
    rw [hth] at hAB
    cases hAB
    rfl

/-- The weighted scores do not depend on the threshold fields: caching
alpha and beta does not change any input of `cal_weighted_score`. -/
theorem cal_weighted_score_update (s : ADOA) (x y : PyNum) :
    cal_weighted_score { s with alpha := x, beta := y } = cal_weighted_score s := rfl

/-- Running `determine_trainset` again on the state it produced yields
the same training triple and the same state: the second run resolves
alpha from the cached numeric value and re-derives the identical beta. -/
theorem determine_trainset_restart {s : ADOA} {t : TrainSet} {s' : ADOA}
    (h : determine_trainset s = .ok (t, s')) :
    determine_trainset s' = .ok (t, s') := by
  obtain ⟨hne, A, B, hth, ht, hs'⟩ := determine_trainset_ok h
  obtain ⟨hA, hB, hBA⟩ := thresholds_ok hth
  subst hs' ht
  have hws : cal_weighted_score { s with alpha := .num A, beta := .num B }
      = cal_weighted_score s := rfl
  have hth2 : thresholds (cal_weighted_score s) s.anomalies.length (PyNum.num A)
      s.percent s.gailv = .ok (A, B) :=
    thresholds_ok_of rfl hB hBA
  have := determine_trainset_ok_of (s := { s with alpha := .num A, beta := .num B })
    (by rw [hws]; exact hne) (by rw [hws]; exact hth2)
  simpa using this

/-! Further list helpers for the training-set shape. -/

theorem le_foldl_min {c : ℚ} (l : List ℚ) (a : ℚ) (ha : c ≤ a)
    (h : ∀ x ∈ l, c ≤ x) : c ≤ l.foldl min a := by
  induction l generalizing a with
  | nil => exact ha
  | cons x xs ih =>
    exact ih (min a x) (le_min ha (h x (List.mem_cons_self x xs)))
      (fun y hy => h y (List.mem_cons_of_mem x hy))

theorem le_npMin {c : ℚ} {l : List ℚ} (hne : l ≠ []) (h : ∀ x ∈ l, c ≤ x) :
    c ≤ npMin l := by
  match l with
  | [] => exact absurd rfl hne
  | y :: ys =>
    rw [npMin]
    exact le_foldl_min ys y (h y (List.mem_cons_self y ys))
      (fun x hx => h x (List.mem_cons_of_mem y hx))

theorem cal_weighted_score_length {s : ADOA}
    (hif : (s.iforestScore (dataset s)).length = (dataset s).length) :
    (cal_weighted_score s).length = (dataset s).length := by
  simp [cal_weighted_score, isolation_score_scaled, similarity_score_scaled,
    isolation_score, similarity_score, minmax_scale, hif]

theorem unlabel_scores_length {s : ADOA}
    (hif : (s.iforestScore (dataset s)).length = (dataset s).length) :
    ((cal_weighted_score s).drop s.anomalies.length).length = s.unlabel.length := by
  rw [List.length_drop, cal_weighted_score_length hif, dataset,
    List.length_append]
  omega

theorem filter_zip_snd_length {α : Type} (f : ℚ → Bool) :
    ∀ (l₁ : List α) (l₂ : List ℚ), l₁.length = l₂.length →
      ((l₁.zip l₂).filter (fun q => f q.2)).length = l₂.countP f := by
  intro l₁
  induction l₁ with
  | nil =>
    intro l₂ h
    match l₂ with
    | [] => rfl
    | b :: bs => cases h
  | cons a as ih =>
    intro l₂ h
    match l₂ with
    | [] => cases h
    | b :: bs =>
      simp only [List.zip_cons_cons, List.filter_cons, List.countP_cons]
      have := ih bs (by simpa using h)
      by_cases hb : f b
      · simp [hb, this]
      · simp [hb, this]

/-- C3 — Idempotence of `determine_trainset`: a second call on the same
estimator instance (no configuration change in between) returns the
identical `(X_train, y_train, weights)` triple, and does not change the
state further.  [claim C3] -/
theorem determine_trainset_idempotent (s : ADOA) (t₁ t₂ : TrainSet) (s₁ s₂ : ADOA)
    (h₁ : determine_trainset s = .ok (t₁, s₁))
    (h₂ : determine_trainset s₁ = .ok (t₂, s₂)) :
    t₂ = t₁ ∧ s₂ = s₁ := by
  have hre := determine_trainset_restart h₁
  rw [h₂] at hre
  cases hre
  exact ⟨rfl, rfl⟩

/-- C4 — Frame property: each of `determine_trainset`, `predict` and
`__repr__` mutates nothing but the two threshold fields `alpha`, `beta`;
the values they store are stable (a repeated call computes the same
thresholds, returns the same result, and leaves the state fixed), so the
thresholds are observably computed once and cached for the instance's
lifetime, and reporting is read-only beyond that one-time computation.
[claim C4] -/
theorem adoa_frame (s : ADOA) :
    (∀ t s', determine_trainset s = .ok (t, s') →
      (∃ A B, s' = { s with alpha := .num A, beta := .num B }) ∧
        determine_trainset s' = .ok (t, s')) ∧
    (∀ p s', predict s = .ok (p, s') →
      (∃ A B, s' = { s with alpha := .num A, beta := .num B }) ∧
        predict s' = .ok (p, s')) ∧
    (∀ r s', reprCounts s = .ok (r, s') →
      (∃ A B, s' = { s with alpha := .num A, beta := .num B }) ∧
        reprCounts s' = .ok (r, s')) := by
  refine ⟨?_, ?_, ?_⟩
  · intro t s' h
    obtain ⟨hne, A, B, hth, ht, hs'⟩ := determine_trainset_ok h
    exact ⟨⟨A, B, hs'⟩, determine_trainset_restart h⟩
  · intro p s' h
    rw [predict] at h
    split at h
    · cases h
    · rename_i X y w s2 hdet
      obtain ⟨hne, A, B, hth, ht, hs2⟩ := determine_trainset_ok hdet
      have hre := determine_trainset_restart hdet
      split at h
      · rename_i hproba
        cases h
        refine ⟨⟨A, B, hs2⟩, ?_⟩
        rw [predict]
        split
        · rename_i e he
          rw [hre] at he
          cases he
        · rename_i X' y' w' s2' hdet'
          rw [hre] at hdet'
          cases hdet'
          rw [if_pos hproba]
      · rename_i hproba
        cases h
        refine ⟨⟨A, B, hs2⟩, ?_⟩
        rw [predict]
        split
        · rename_i e he
          rw [hre] at he
          cases he
        · rename_i X' y' w' s2' hdet'
          rw [hre] at hdet'
          cases hdet'
          rw [if_neg hproba]
  · intro r s' h
    rw [reprCounts] at h
    split at h
    · cases h
    · rename_i X y w s2 hdet
      obtain ⟨hne, A, B, hth, ht, hs2⟩ := determine_trainset_ok hdet
      have hre := determine_trainset_restart hdet
      cases h
      refine ⟨⟨A, B, hs2⟩, ?_⟩
      rw [reprCounts]
      split
      · rename_i e he
        rw [hre] at he
        cases he
      · rename_i X' y' w' s2' hdet'
        rw [hre] at hdet'
        cases hdet'
        rfl

/-- C5 — Shape of the training set: when `determine_trainset` completes,
`X_train`, `y_train` and `weights` are parallel sequences of equal length
`len(anomalies) + count(score ≥ α) + count(score ≤ β)` over the unlabeled
scores, the two unlabeled subsets are disjoint (β < α), the rows appear
in the fixed order anomalies, potential anomalies, reliable normals, and
the labels are 1 on the first two groups and 0 on the last.  [claim C5] -/
theorem trainset_shape (s : ADOA) (t : TrainSet) (s' : ADOA)
    (hif : (s.iforestScore (dataset s)).length = (dataset s).length)
    (h : determine_trainset s = .ok (t, s')) :
    ∃ A B, s'.alpha = PyNum.num A ∧ s'.beta = PyNum.num B ∧ B < A ∧
      (let ws := cal_weighted_score s
       let u := ws.drop s.anomalies.length
       let pttN := u.countP (fun q => decide (A ≤ q))
       let rlbN := u.countP (fun q => decide (q ≤ B))
       t.1.length = s.anomalies.length + pttN + rlbN ∧
       t.2.1.length = t.1.length ∧
       t.2.2.length = t.1.length ∧
       (∀ q ∈ u, ¬(A ≤ q ∧ q ≤ B)) ∧
       t.1 = s.anomalies ++
         ((s.unlabel.zip u).filter (fun q => decide (A ≤ q.2))).map Prod.fst ++
         ((s.unlabel.zip u).filter (fun q => decide (q.2 ≤ B))).map Prod.fst ∧
       t.2.1 = List.replicate (s.anomalies.length + pttN) 1 ++
         List.replicate rlbN 0) := by
  obtain ⟨hne, A, B, hth, ht, hs'⟩ := determine_trainset_ok h
  obtain ⟨hA, hB, hBA⟩ := thresholds_ok hth
  refine ⟨A, B, by rw [hs'], by rw [hs'], hBA, ?_⟩
  set ws := cal_weighted_score s with hws
  set u := ws.drop s.anomalies.length with hu
  have hulen : s.unlabel.length = u.length := (unlabel_scores_length hif).symm
  have hptt := filter_zip_snd_length (fun q => decide (A ≤ q)) s.unlabel u hulen
  have hrlb := filter_zip_snd_length (fun q => decide (q ≤ B)) s.unlabel u hulen
  subst ht
  refine ⟨?_, ?_, ?_, ?_, ?_, ?_⟩
  · simp only [buildTrainset, List.length_append, List.length_map]
    rw [hptt, hrlb]
  · simp only [buildTrainset, List.length_append, List.length_map,
      List.length_replicate]
  · simp only [buildTrainset, List.length_append, List.length_map,
      List.length_replicate]
  · intro q hq ⟨hAq, hqB⟩
    exact absurd (le_trans hAq hqB) (not_le.mpr hBA)
  · simp only [buildTrainset]
  · simp only [buildTrainset]
    rw [hptt, hrlb, List.replicate_add]

/-- C6 (amended) — Weight values: when `determine_trainset` completes,
every known-anomaly row gets weight exactly 1.0, every potential-anomaly
row `score / max_score` and every reliable-normal row
`(max_score - score) / (max_score - min_score)`; and provided the
weighted scores are not all equal (`min_score < max_score`) and θ lies in
its documented range [0, 1], all of these weights are defined (no NaN)
and lie in [0, 1].  The original claim's unconditional "[0,1]" part fails
on an all-equal score distribution, where the reliable-normal division is
0/0 (see the counterexample).  [claim C6] -/
theorem weights_shape (s : ADOA) (t : TrainSet) (s' : ADOA)
    (hθ0 : 0 ≤ s.theta) (hθ1 : s.theta ≤ 1)
    (h : determine_trainset s = .ok (t, s'))
    (hspread : npMin (cal_weighted_score s) < npMax (cal_weighted_score s)) :
    ∃ A B, s'.alpha = PyNum.num A ∧ s'.beta = PyNum.num B ∧
      (let ws := cal_weighted_score s
       let u := ws.drop s.anomalies.length
       t.2.2 = List.replicate s.anomalies.length (some 1) ++
         ((s.unlabel.zip u).filter (fun q => decide (A ≤ q.2))).map
           (fun q => npDiv q.2 (npMax ws)) ++
         ((s.unlabel.zip u).filter (fun q => decide (q.2 ≤ B))).map
           (fun q => npDiv (npMax ws - q.2) (npMax ws - npMin ws))) ∧
      ∀ w ∈ t.2.2, ∃ q, w = some q ∧ 0 ≤ q ∧ q ≤ 1 := by
  obtain ⟨hne, A, B, hth, ht, hs'⟩ := determine_trainset_ok h
  set ws := cal_weighted_score s with hws
  have hmem_bounds : ∀ x ∈ ws, 0 ≤ x ∧ x ≤ 1 := fun x hx =>
    cal_weighted_score_bounds hθ0 hθ1 hx
  have hmin0 : 0 ≤ npMin ws := le_npMin hne (fun x hx => (hmem_bounds x hx).1)
  have hmaxpos : 0 < npMax ws := lt_of_le_of_lt hmin0 hspread
  have hd : 0 < npMax ws - npMin ws := by linarith
  refine ⟨A, B, by rw [hs'], by rw [hs'], ?_, ?_⟩
  · subst ht
    simp only [buildTrainset]
  · subst ht
    intro w hw
    simp only [buildTrainset, List.mem_append] at hw
    rcases hw with (hw | hw) | hw
    · have := List.eq_of_mem_replicate hw
      exact ⟨1, this, by norm_num⟩
    · simp only [List.mem_map] at hw
      obtain ⟨q, hqf, rfl⟩ := hw
      have hqz := List.mem_of_mem_filter hqf
      have hsc : q.2 ∈ ws := List.drop_subset _ _ (List.of_mem_zip hqz).2
      have h1 : npMin ws ≤ q.2 := npMin_le_mem hsc
      have h2 : q.2 ≤ npMax ws := mem_le_npMax hsc
      refine ⟨q.2 / npMax ws, ?_, ?_, ?_⟩
      · rw [npDiv, if_neg (ne_of_gt hmaxpos)]
      · exact div_nonneg (by linarith) hmaxpos.le
      · rw [div_le_one hmaxpos]
        exact h2
    · simp only [List.mem_map] at hw
      obtain ⟨q, hqf, rfl⟩ := hw
      have hqz := List.mem_of_mem_filter hqf
      have hsc : q.2 ∈ ws := List.drop_subset _ _ (List.of_mem_zip hqz).2
      have h1 : npMin ws ≤ q.2 := npMin_le_mem hsc
      have h2 : q.2 ≤ npMax ws := mem_le_npMax hsc
      refine ⟨(npMax ws - q.2) / (npMax ws - npMin ws), ?_, ?_, ?_⟩
      · rw [npDiv, if_neg (ne_of_gt hd)]
      · exact div_nonneg (by linarith) hd.le
      · rw [div_le_one hd]
        linarith

/-- C7 — Score fusion: every per-sample weighted score is
`θ · isolation_score_scaled + (1−θ) · similarity_score_scaled`, the raw
similarity score of a row is `exp(-(min over centers of the squared
Euclidean distance) / feature_dimensionality)`, and both rescaled
sub-score families lie componentwise in [0, 1].  [claim C7] -/
theorem weighted_score_fusion (s : ADOA) (i : ℕ) (a b : ℚ)
    (ha : (isolation_score_scaled s)[i]? = some a)
    (hb : (similarity_score_scaled s)[i]? = some b) :
    (cal_weighted_score s)[i]? = some (s.theta * a + (1 - s.theta) * b) ∧
    (0 ≤ a ∧ a ≤ 1) ∧ (0 ≤ b ∧ b ≤ 1) ∧
    ∀ arr, (dataset s)[i]? = some arr →
      (similarity_score s)[i]? =
        some (s.expf (-(minDistSq arr s.centers) / (arr.length : ℚ))) := by
  refine ⟨?_, ?_, ?_, ?_⟩
  · rw [cal_weighted_score, List.getElem?_zipWith_eq_some]
    exact ⟨a, b, ha, hb, rfl⟩
  · exact mem_minmax_scale_bounds (List.getElem?_mem ha)
  · exact mem_minmax_scale_bounds (List.getElem?_mem hb)
  · intro arr harr
    rw [similarity_score, List.getElem?_map, harr]
    rfl

/-! Correspondence between the loop as implemented and the loop as the
specification words it. -/

theorem specBetaLoop_eq (ws : List ℚ) (A : ℚ) :
    ∀ (percent beta : ℚ), specBetaLoop ws A percent beta = betaLoop ws A percent beta := by
  intro percent beta
  induction percent, beta using betaLoop.induct ws A with
  | case1 percent beta hba hz =>
    rw [specBetaLoop, if_pos hba, dif_pos hz, betaLoop_fallback hba hz, mul_comm]
  | case2 percent beta hba hz e he =>
    rw [specBetaLoop, if_pos hba, dif_neg hz, betaLoop_step_err hba hz he]
    split
    · rename_i e' he'
      rw [he] at he'
      cases he'
      rfl
    · rename_i b2 hb2
      rw [he] at hb2
      cases hb2
  | case3 percent beta hba hz b2 hb2 ih =>
    rw [specBetaLoop, if_pos hba, dif_neg hz, betaLoop_step hba hz hb2]
    split
    · rename_i e' he'
      rw [hb2] at he'
      cases he'
    · rename_i b2' hb2'
      rw [hb2] at hb2'
      cases hb2'
      exact ih
  | case4 percent beta hba =>
    rw [specBetaLoop, if_neg hba, betaLoop_exit (not_le.mp hba)]

theorem specBetaDerive_eq (ws : List ℚ) (A percent : ℚ) :
    specBetaDerive ws A percent = betaDerive ws A percent := by
  rw [specBetaDerive, betaDerive]
  by_cases hm : npMedian ws < A
  · rw [if_pos hm, if_pos hm, specBetaLoop_eq]
  · rw [if_neg hm, if_neg hm]
    split
    · rfl
    · rw [specBetaLoop_eq]

/-- C8 — Auto threshold derivation: with the `'auto'` alpha sentinel,
`determine_trainset` caches
`alpha = ((mean(anomaly_scores) + min(all_scores)) / 2) * scale_factor`,
and caches as beta the value obtained by starting from the median of all
weighted scores when that median is strictly below alpha (otherwise from
the configured percentile) and then relaxing the percentile by 5 while
beta ≥ alpha, forcing `beta = 0.9 * alpha` when the percentile reaches 0
— as captured by the specification-side definitions `specAlpha` and
`specBetaDerive`.  [claim C8] -/
theorem auto_threshold_derivation (s : ADOA) (t : TrainSet) (s' : ADOA)
    (hauto : s.alpha = PyNum.auto)
    (h : determine_trainset s = .ok (t, s')) :
    s'.alpha = PyNum.num (specAlpha ((cal_weighted_score s).take s.anomalies.length)
      (cal_weighted_score s) s.gailv) ∧
    ∃ B, s'.beta = PyNum.num B ∧
      specBetaDerive (cal_weighted_score s)
        (specAlpha ((cal_weighted_score s).take s.anomalies.length)
          (cal_weighted_score s) s.gailv) s.percent = .ok B := by
  obtain ⟨hne, A, B, hth, ht, hs'⟩ := determine_trainset_ok h
  obtain ⟨hA, hB, hBA⟩ := thresholds_ok hth
  have hAval : specAlpha ((cal_weighted_score s).take s.anomalies.length)
      (cal_weighted_score s) s.gailv = A := by
    rw [← hA, hauto, resolveAlpha, specAlpha]
  constructor
  · rw [hs', hAval]
  · exact ⟨B, by rw [hs'], by rw [specBetaDerive_eq, hAval]; exact hB⟩

/-- C10 — Relaxation loop termination: for every initial percent that is
a positive multiple of 5 (and at most 100, else the percentile lookup
itself is out of range) the loop terminates with a value — reaching the
`beta = 0.9 * alpha` fallback whenever the scores keep every consulted
percentile at or above alpha; the fallback guard tests exact equality
with 0 after each decrement of 5, so when the configured percent is not
a multiple of 5 the countdown skips 0 and the loop instead invokes the
percentile computation with a negative argument, which raises the
percentile range error.  [claim C10] -/
theorem relaxation_loop_termination :
    (∀ (ws : List ℚ) (A beta : ℚ) (k : ℕ), ws ≠ [] → 5 * ((k : ℚ) + 1) ≤ 100 →
      (∃ b, betaLoop ws A (5 * ((k : ℚ) + 1)) beta = .ok b) ∧
      (A ≤ npMin ws → A ≤ beta →
        betaLoop ws A (5 * ((k : ℚ) + 1)) beta = .ok (A * (9 / 10)))) ∧
    (∀ (ws : List ℚ) (A percent beta : ℚ), ws ≠ [] →
      (∀ j : ℕ, percent ≠ 5 * (j : ℚ)) → percent ≤ 100 → A ≤ npMin ws →
      A ≤ beta → betaLoop ws A percent beta = .error percentileRangeMsg) := by
  constructor
  · intro ws A beta k hne h100
    constructor
    · obtain ⟨b, hb, _⟩ := betaLoop_mult5 A hne k beta h100
      exact ⟨b, hb⟩
    · intro hmin hba
      exact betaLoop_mult5_high A hne hmin k beta h100 hba
  · intro ws A percent beta hne hnm h100 hmin hba
    exact betaLoop_nonmult hne hmin percent beta hnm h100 hba

/-- C2 (amended/corrected) — Threshold derivation success: provided the
effective alpha is strictly positive and the configured percent is a
positive multiple of 5 not exceeding 100 (as the default 45 is),
`determine_trainset` completes with a cached beta strictly below alpha,
so the `beta should be smaller than alpha` assertion cannot fire.  The
original unconditional claim is false: on a degenerate all-equal score
distribution the derived alpha is 0, the relaxation fallback sets
`beta = 0.9 * 0 = 0`, and the assertion fires (see the counterexample).
[claim C2] -/
theorem threshold_derivation_completes (s : ADOA)
    (hk : ∃ k : ℕ, s.percent = 5 * ((k : ℚ) + 1)) (h100 : s.percent ≤ 100)
    (hne : cal_weighted_score s ≠ [])
    (hA : 0 < resolveAlpha s.alpha (cal_weighted_score s) s.anomalies.length s.gailv) :
    ∃ t B, determine_trainset s =
        .ok (t, { s with
          alpha := .num (resolveAlpha s.alpha (cal_weighted_score s)
            s.anomalies.length s.gailv),
          beta := .num B }) ∧
      B < resolveAlpha s.alpha (cal_weighted_score s) s.anomalies.length s.gailv := by
  obtain ⟨k, hkval⟩ := hk
  set ws := cal_weighted_score s with hws
  set A := resolveAlpha s.alpha ws s.anomalies.length s.gailv with hAdef
  have hder : ∃ B, betaDerive ws A s.percent = .ok B ∧ B < A := by
    rw [betaDerive, hkval]
    by_cases hm : npMedian ws < A
    · rw [if_pos hm]
      exact ⟨npMedian ws, betaLoop_exit hm, hm⟩
    · rw [if_neg hm]
      have hp0 : (0:ℚ) ≤ 5 * ((k : ℚ) + 1) := by positivity
      have h100k : 5 * ((k : ℚ) + 1) ≤ 100 := by rw [← hkval]; exact h100
      rw [npPercentile_ok_of hne hp0 h100k]
      obtain ⟨b, hb, hcase⟩ := betaLoop_mult5 A hne k
        (npPercentileCore ws (5 * ((k : ℚ) + 1))) h100k
      refine ⟨b, hb, ?_⟩
      rcases hcase with h | h
      · exact h
      · rw [h]
        linarith
  obtain ⟨B, hB, hBA⟩ := hder
  refine ⟨buildTrainset s.anomalies s.unlabel ws A B, B, ?_, hBA⟩
  exact determine_trainset_ok_of hne (thresholds_ok_of rfl hB hBA)

/-! Evaluation of the concrete example states. -/

theorem determine_trainset_err_of {s : ADOA} {e : String}
    (hne : cal_weighted_score s ≠ [])
    (hth : thresholds (cal_weighted_score s) s.anomalies.length s.alpha s.percent s.gailv
      = .error e) :
    determine_trainset s = .error e := by
  rw [determine_trainset, if_neg hne]
  split
  · rename_i e' he
    rw [hth] at he
    cases he
    rfl
  · rename_i A B hAB
    rw [hth] at hAB
    cases hAB

/-- Linear interpolation on an unsorted two-element array. -/
theorem npPercentileCore_pair_rev {a b p : ℚ} (hba : ¬ b ≤ a) (_h0 : 0 ≤ p)
    (h1 : p < 100) : npPercentileCore [b, a] p = a + p / 100 * (b - a) := by
  have hfl : Nat.floor (p / 100) = 0 := by
    rw [Nat.floor_eq_zero]
    rw [div_lt_one (by norm_num : (0:ℚ) < 100)]
    linarith
  rw [npPercentileCore]
  simp only [List.insertionSort, List.orderedInsert, if_neg hba, List.length_cons,
    List.length_nil]
  norm_num [hfl, List.getD]

theorem exMain_ws : cal_weighted_score exMain =
    [17/20, 51/80, 17/40, 17/80, 0] := by
  simp only [cal_weighted_score, isolation_score_scaled, isolation_score,
    similarity_score_scaled, similarity_score, dataset, cal_similarity_score,
    minDistSq, sqDistSum, exMain, exBase]
  norm_num [minmax_scale, npMin, npMax, min_def, max_def, cal_similarity_score,
    minDistSq, sqDistSum]

theorem exMain_sort : List.insertionSort (fun a b => a ≤ b)
    [(17:ℚ)/20, 51/80, 17/40, 17/80, 0] = [0, 17/80, 17/40, 51/80, 17/20] := by
  norm_num [List.insertionSort, List.orderedInsert]

theorem exMain_median : npMedian [(17:ℚ)/20, 51/80, 17/40, 17/80, 0] = 17/40 := by
  have hf : Nat.floor ((2:ℚ)) = 2 := by rw [Nat.floor_eq_iff] <;> norm_num
  norm_num [npMedian, npPercentileCore, exMain_sort, hf, List.getD]

theorem exMain_p45 : npPercentile [(17:ℚ)/20, 51/80, 17/40, 17/80, 0] 45
    = .ok (153/400) := by
  have hf : Nat.floor ((9:ℚ)/5) = 1 := by rw [Nat.floor_eq_iff] <;> norm_num
  rw [npPercentile, if_neg (by simp), if_neg (by norm_num)]
  norm_num [npPercentileCore, exMain_sort, hf, List.getD]

theorem exMain_p40 : npPercentile [(17:ℚ)/20, 51/80, 17/40, 17/80, 0] (45 - 5)
    = .ok (17/50) := by
  have hf : Nat.floor ((8:ℚ)/5) = 1 := by rw [Nat.floor_eq_iff] <;> norm_num
  rw [show ((45:ℚ) - 5) = 40 by norm_num]
  rw [npPercentile, if_neg (by simp), if_neg (by norm_num)]
  norm_num [npPercentileCore, exMain_sort, hf, List.getD]

theorem exMain_beta : betaDerive [(17:ℚ)/20, 51/80, 17/40, 17/80, 0] (119/320) 45
    = .ok (17/50) := by
  rw [betaDerive, if_neg (by rw [exMain_median]; norm_num), exMain_p45]
  show betaLoop _ _ _ _ = _
  rw [betaLoop_step (by norm_num) (by norm_num) exMain_p40]
  exact betaLoop_exit (by norm_num)

theorem exMain_alpha : resolveAlpha PyNum.auto [(17:ℚ)/20, 51/80, 17/40, 17/80, 0] 2 1
    = 119/320 := by
  norm_num [resolveAlpha, npMean, npMin, min_def]

theorem exMain_thr : thresholds [(17:ℚ)/20, 51/80, 17/40, 17/80, 0] 2 PyNum.auto 45 1
    = .ok (119/320, 17/50) :=
  thresholds_ok_of exMain_alpha exMain_beta (by norm_num)

/-- The full run of `determine_trainset` on the main witness state. -/
theorem exMain_run : determine_trainset exMain = .ok (exTrain, exMain2) := by
  have hthr2 : thresholds (cal_weighted_score exMain) exMain.anomalies.length
      exMain.alpha exMain.percent exMain.gailv = .ok (119/320, 17/50) := by
    rw [exMain_ws]
    exact exMain_thr
  have hne : cal_weighted_score exMain ≠ [] := by
    rw [exMain_ws]
    simp
  have h1 := determine_trainset_ok_of hne hthr2
  rw [h1]
  have hbuild : buildTrainset exMain.anomalies exMain.unlabel
      (cal_weighted_score exMain) (119/320) (17/50) = exTrain := by
    rw [exMain_ws]
    show buildTrainset [[0],[1]] [[2],[3],[4]] _ _ _ = _
    norm_num [buildTrainset, npMin, npMax, npDiv, min_def, max_def, exTrain,
      List.replicate]
  rw [hbuild]
  rfl

theorem exManualBeta_ws : cal_weighted_score exManualBeta = [1, 1/2, 0, 9/20] := by
  simp only [cal_weighted_score, isolation_score_scaled, isolation_score,
    similarity_score_scaled, similarity_score, dataset, cal_similarity_score,
    minDistSq, sqDistSum, exManualBeta, exBase]
  norm_num [minmax_scale, npMin, npMax, min_def, max_def, cal_similarity_score,
    minDistSq, sqDistSum]

theorem exManualBeta_median : npMedian [(1:ℚ), 1/2, 0, 9/20] = 19/40 := by
  have hf : Nat.floor ((3:ℚ)/2) = 1 := by rw [Nat.floor_eq_iff] <;> norm_num
  norm_num [npMedian, npPercentileCore, List.insertionSort, List.orderedInsert,
    hf, List.getD]

theorem exManualBeta_thr : thresholds [(1:ℚ), 1/2, 0, 9/20] 1 (PyNum.num (4/5)) 45 1
    = .ok (4/5, 19/40) := by
  refine thresholds_ok_of rfl ?_ (by norm_num)
  rw [betaDerive, if_pos (by rw [exManualBeta_median]; norm_num), exManualBeta_median]
  exact betaLoop_exit (by norm_num)

theorem exManualBeta_run : determine_trainset exManualBeta =
    .ok (([[0], [2], [3]], [1, 0, 0], [some 1, some 1, some (11/20)]),
      { exManualBeta with alpha := PyNum.num (4/5), beta := PyNum.num (19/40) }) := by
  have hthr2 : thresholds (cal_weighted_score exManualBeta)
      exManualBeta.anomalies.length exManualBeta.alpha exManualBeta.percent
      exManualBeta.gailv = .ok (4/5, 19/40) := by
    rw [exManualBeta_ws]
    exact exManualBeta_thr
  have hne : cal_weighted_score exManualBeta ≠ [] := by
    rw [exManualBeta_ws]
    simp
  rw [determine_trainset_ok_of hne hthr2]
  have hbuild : buildTrainset exManualBeta.anomalies exManualBeta.unlabel
      (cal_weighted_score exManualBeta) (4/5) (19/40)
      = ([[0], [2], [3]], [1, 0, 0], [some 1, some 1, some (11/20)]) := by
    rw [exManualBeta_ws]
    show buildTrainset [[0]] [[1],[2],[3]] _ _ _ = _
    norm_num [buildTrainset, npMin, npMax, npDiv, min_def, max_def, List.replicate]
  rw [hbuild]

theorem exAllZero_ws : cal_weighted_score exAllZero = [0, 0, 0] := by
  simp only [cal_weighted_score, isolation_score_scaled, isolation_score,
    similarity_score_scaled, similarity_score, dataset, cal_similarity_score,
    minDistSq, sqDistSum, exAllZero, exBase]
  norm_num [minmax_scale, npMin, npMax, min_def, max_def, cal_similarity_score,
    minDistSq, sqDistSum]

theorem exAllZero_beta : betaDerive [(0:ℚ), 0, 0] 0 45 = .ok 0 := by
  have hmed : npMedian [(0:ℚ), 0, 0] = 0 := by
    rw [npMedian]
    exact npPercentileCore_const (by simp) (by intro x hx; simpa using hx)
      (by norm_num) (by norm_num)
  have hp45 : npPercentile [(0:ℚ), 0, 0] 45 = .ok 0 := by
    rw [npPercentile_ok_of (by simp) (by norm_num) (by norm_num),
      npPercentileCore_const (by simp) (by intro x hx; simpa using hx)
        (by norm_num) (by norm_num)]
  rw [betaDerive, if_neg (by rw [hmed]; norm_num), hp45]
  show betaLoop _ _ _ _ = _
  have h45 : (45:ℚ) = 5 * (((8:ℕ) : ℚ) + 1) := by norm_num
  rw [h45]
  rw [betaLoop_mult5_high 0 (by simp) (by norm_num [npMin, min_def]) 8 0
    (by norm_num) (by norm_num)]
  norm_num

theorem exAllZero_thr : thresholds [(0:ℚ), 0, 0] 1 PyNum.auto 45 1
    = .error "beta should be smaller than alpha." := by
  have hA : resolveAlpha PyNum.auto [(0:ℚ), 0, 0] 1 1 = 0 := by
    norm_num [resolveAlpha, npMean, npMin, min_def]
  rw [thresholds, hA]
  rw [exAllZero_beta]
  norm_num

/-- C2 counterexample: on a state whose weighted scores are all equal
(all 0 after min-max scaling of constant sub-scores), the auto-derived
alpha is 0, the relaxation loop exhausts its countdown, the fallback sets
beta = 0.9 · 0 = 0, and the `beta should be smaller than alpha` assertion
fires — so `determine_trainset` does not complete with beta < alpha.
[claim C2 counterexample] -/
theorem assertion_fires_on_degenerate_scores :
    determine_trainset exAllZero = .error "beta should be smaller than alpha." := by
  have hne : cal_weighted_score exAllZero ≠ [] := by
    rw [exAllZero_ws]
    simp
  refine determine_trainset_err_of hne ?_
  rw [exAllZero_ws]
  show thresholds [(0:ℚ), 0, 0] 1 PyNum.auto 45 1 = _
  exact exAllZero_thr

theorem exNanWeight_ws : cal_weighted_score exNanWeight = [0, 0] := by
  simp only [cal_weighted_score, isolation_score_scaled, isolation_score,
    similarity_score_scaled, similarity_score, dataset, cal_similarity_score,
    minDistSq, sqDistSum, exNanWeight, exBase]
  norm_num [minmax_scale, npMin, npMax, min_def, max_def, cal_similarity_score,
    minDistSq, sqDistSum]

theorem exNanWeight_thr : thresholds [(0:ℚ), 0] 1 (PyNum.num (1/2)) 45 1
    = .ok (1/2, 0) := by
  refine thresholds_ok_of rfl ?_ (by norm_num)
  have hmed : npMedian [(0:ℚ), 0] = 0 := by
    rw [npMedian]
    exact npPercentileCore_const (by simp) (by intro x hx; simpa using hx)
      (by norm_num) (by norm_num)
  rw [betaDerive, if_pos (by rw [hmed]; norm_num), hmed]
  exact betaLoop_exit (by norm_num)

theorem exNanWeight_run : determine_trainset exNanWeight =
    .ok (([[0], [1]], [1, 0], [some 1, none]),
      { exNanWeight with alpha := PyNum.num (1/2), beta := PyNum.num 0 }) := by
  have hthr2 : thresholds (cal_weighted_score exNanWeight)
      exNanWeight.anomalies.length exNanWeight.alpha exNanWeight.percent
      exNanWeight.gailv = .ok (1/2, 0) := by
    rw [exNanWeight_ws]
    exact exNanWeight_thr
  have hne : cal_weighted_score exNanWeight ≠ [] := by
    rw [exNanWeight_ws]
    simp
  rw [determine_trainset_ok_of hne hthr2]
  have hbuild : buildTrainset exNanWeight.anomalies exNanWeight.unlabel
      (cal_weighted_score exNanWeight) (1/2) 0
      = ([[0], [1]], [1, 0], [some 1, none]) := by
    rw [exNanWeight_ws]
    show buildTrainset [[0]] [[1]] _ _ _ = _
    norm_num [buildTrainset, npMin, npMax, npDiv, min_def, max_def, List.replicate]
  rw [hbuild]

theorem exEmptyUnlabel_ws : cal_weighted_score exEmptyUnlabel = [1, 0] := by
  simp only [cal_weighted_score, isolation_score_scaled, isolation_score,
    similarity_score_scaled, similarity_score, dataset, cal_similarity_score,
    minDistSq, sqDistSum, exEmptyUnlabel, exBase]
  norm_num [minmax_scale, npMin, npMax, min_def, max_def, cal_similarity_score,
    minDistSq, sqDistSum]

theorem exEmptyUnlabel_beta : betaDerive [(1:ℚ), 0] (1/4) 45 = .ok (1/5) := by
  have hmed : npMedian [(1:ℚ), 0] = 1/2 := by
    rw [npMedian, npPercentileCore_pair_rev (by norm_num) (by norm_num) (by norm_num)]
    norm_num
  have hp : ∀ p : ℚ, 0 ≤ p → p < 100 →
      npPercentile [(1:ℚ), 0] p = .ok (p / 100) := by
    intro p h0 h1
    rw [npPercentile_ok_of (by simp) h0 (by linarith),
      npPercentileCore_pair_rev (by norm_num) h0 h1]
    norm_num
  have h45 : npPercentile [(1:ℚ), 0] 45 = .ok (9/20) := by
    rw [hp 45 (by norm_num) (by norm_num)]
    norm_num
  have h40 : npPercentile [(1:ℚ), 0] (45 - 5) = .ok (2/5) := by
    rw [hp (45 - 5) (by norm_num) (by norm_num)]
    norm_num
  have h35 : npPercentile [(1:ℚ), 0] (45 - 5 - 5) = .ok (7/20) := by
    rw [hp (45 - 5 - 5) (by norm_num) (by norm_num)]
    norm_num
  have h30 : npPercentile [(1:ℚ), 0] (45 - 5 - 5 - 5) = .ok (3/10) := by
    rw [hp (45 - 5 - 5 - 5) (by norm_num) (by norm_num)]
    norm_num
  have h25 : npPercentile [(1:ℚ), 0] (45 - 5 - 5 - 5 - 5) = .ok (1/4) := by
    rw [hp (45 - 5 - 5 - 5 - 5) (by norm_num) (by norm_num)]
    norm_num
  have h20 : npPercentile [(1:ℚ), 0] (45 - 5 - 5 - 5 - 5 - 5) = .ok (1/5) := by
    rw [hp (45 - 5 - 5 - 5 - 5 - 5) (by norm_num) (by norm_num)]
    norm_num
  rw [betaDerive, if_neg (by rw [hmed]; norm_num), h45]
  show betaLoop _ _ _ _ = _
  rw [betaLoop_step (by norm_num) (by norm_num) h40]
  rw [betaLoop_step (by norm_num) (by norm_num) h35]
  rw [betaLoop_step (by norm_num) (by norm_num) h30]
  rw [betaLoop_step (by norm_num) (by norm_num) h25]
  rw [betaLoop_step (by norm_num) (by norm_num) h20]
  exact betaLoop_exit (by norm_num)

theorem exEmptyUnlabel_thr : thresholds [(1:ℚ), 0] 2 PyNum.auto 45 1
    = .ok (1/4, 1/5) := by
  refine thresholds_ok_of ?_ exEmptyUnlabel_beta (by norm_num)
  norm_num [resolveAlpha, npMean, npMin, min_def]

/-- The full run of `determine_trainset` on the empty-unlabeled-pool
state: it completes without any error. -/
theorem exEmptyUnlabel_run :
    determine_trainset exEmptyUnlabel =
      .ok (([[0], [1]], [1, 1], [some 1, some 1]),
        { exEmptyUnlabel with alpha := PyNum.num (1/4), beta := PyNum.num (1/5) }) := by
  have hthr2 : thresholds (cal_weighted_score exEmptyUnlabel)
      exEmptyUnlabel.anomalies.length exEmptyUnlabel.alpha exEmptyUnlabel.percent
      exEmptyUnlabel.gailv = .ok (1/4, 1/5) := by
    rw [exEmptyUnlabel_ws]
    exact exEmptyUnlabel_thr
  have hne : cal_weighted_score exEmptyUnlabel ≠ [] := by
    rw [exEmptyUnlabel_ws]
    simp
  rw [determine_trainset_ok_of hne hthr2]
  have hbuild : buildTrainset exEmptyUnlabel.anomalies exEmptyUnlabel.unlabel
      (cal_weighted_score exEmptyUnlabel) (1/4) (1/5)
      = ([[0], [1]], [1, 1], [some 1, some 1]) := by
    rw [exEmptyUnlabel_ws]
    show buildTrainset [[0],[1]] [] _ _ _ = _
    norm_num [buildTrainset, npMin, npMax, npDiv, min_def, max_def, List.replicate]
  rw [hbuild]

/-- C1 — Manual beta is ignored: with fixed numeric thresholds α = 0.8
and β = 0.2 supplied at construction, `determine_trainset` honors the
manual alpha but recomputes beta from the score distribution without
ever consulting the configured value (line 99 reassigns `self.beta`
unconditionally): here the cached beta becomes 19/40 ≠ 1/5, and the
reliable-normal partition `{score ≤ 19/40}` holds 2 unlabeled samples
where the manual partition `{score ≤ 1/5}` would hold 1 — contradicting
the claim (and the constructor docstring documenting beta as a manual
threshold).  [claim C1] -/
theorem manual_beta_ignored :
    exManualBeta.alpha = PyNum.num (4/5) ∧
    exManualBeta.beta = PyNum.num (1/5) ∧
    determine_trainset exManualBeta =
      .ok (([[0], [2], [3]], [1, 0, 0], [some 1, some 1, some (11/20)]),
        { exManualBeta with alpha := PyNum.num (4/5), beta := PyNum.num (19/40) }) ∧
    (19/40 : ℚ) ≠ 1/5 ∧
    ((cal_weighted_score exManualBeta).drop 1).countP
      (fun q => decide (q ≤ 19/40)) = 2 ∧
    ((cal_weighted_score exManualBeta).drop 1).countP
      (fun q => decide (q ≤ 1/5)) = 1 := by
  refine ⟨rfl, rfl, exManualBeta_run, by norm_num, ?_, ?_⟩
  · rw [exManualBeta_ws]
    norm_num [List.countP_cons, List.countP_nil]
  · rw [exManualBeta_ws]
    norm_num [List.countP_cons, List.countP_nil]

/-- C6 counterexample: on a state whose weighted scores are all equal
(so `max_score - min_score = 0`) with a manual alpha keeping the run
alive, `determine_trainset` completes and the reliable-normal weight
`(max_score - score) / (max_score - min_score)` divides zero by zero:
the produced weight is NaN (modelled `none`), which does not lie in
[0, 1].  [claim C6 counterexample] -/
theorem nan_weight_on_equal_scores :
    (determine_trainset exNanWeight).map (fun p => p.1.2.2) = .ok [some 1, none] ∧
    ¬(∀ w ∈ ([some 1, none] : List (Option ℚ)), ∃ q, w = some q ∧ 0 ≤ q ∧ q ≤ 1) := by
  constructor
  · rw [exNanWeight_run]
    rfl
  · intro hall
    obtain ⟨q, hq, _⟩ := hall none (by simp)
    cases hq

/-- C9 (amended/corrected) — No input validation: contrary to the claim,
an empty unlabeled pool is not surfaced as an input-validation failure;
whenever `determine_trainset` completes on a state whose unlabeled pool
is empty, it silently returns the anomalies-only training set (all
labels 1, all weights 1).  The module contains no validation code;
failures on an empty anomaly set arise only inside the external
clustering and reduction capabilities.  [claim C9] -/
theorem empty_unlabel_silent (s : ADOA) (t : TrainSet) (s' : ADOA)
    (hu : s.unlabel = []) (h : determine_trainset s = .ok (t, s')) :
    t.1 = s.anomalies ∧ t.2.1 = List.replicate s.anomalies.length 1 ∧
    t.2.2 = List.replicate s.anomalies.length (some 1) := by
  obtain ⟨hne, A, B, hth, ht, hs'⟩ := determine_trainset_ok h
  subst ht
  simp [buildTrainset, hu]

/-- C9 counterexample: the degenerate empty-unlabeled-pool input the
claim says must fail with an input-validation error instead completes
normally.  [claim C9 counterexample] -/
theorem empty_unlabel_not_rejected :
    determine_trainset exEmptyUnlabel =
      .ok (([[0], [1]], [1, 1], [some 1, some 1]),
        { exEmptyUnlabel with alpha := PyNum.num (1/4), beta := PyNum.num (1/5) }) :=
  exEmptyUnlabel_run

/-! Witnesses instantiating the hypothesis-carrying claim theorems at the
concrete example states. -/

theorem exMain_iso : isolation_score_scaled exMain = [1, 3/4, 1/2, 1/4, 0] := by
  simp only [isolation_score_scaled, isolation_score, dataset, exMain, exBase]
  norm_num [minmax_scale, npMin, npMax, min_def, max_def]

theorem exMain_sim : similarity_score_scaled exMain = [0, 0, 0, 0, 0] := by
  simp only [similarity_score_scaled, similarity_score, dataset,
    cal_similarity_score, minDistSq, sqDistSum, exMain, exBase]
  norm_num [minmax_scale, npMin, npMax, min_def, max_def, cal_similarity_score,
    minDistSq, sqDistSum]

/-- Witness for the C3 theorem at the concrete state `exMain`. -/
theorem determine_trainset_idempotent_witness :
    exTrain = exTrain ∧ exMain2 = exMain2 :=
  determine_trainset_idempotent exMain exTrain exTrain exMain2 exMain2 exMain_run
    (determine_trainset_restart exMain_run)

/-- Witness for the C4 theorem at the concrete state `exMain`. -/
theorem adoa_frame_witness :
    (∃ A B, exMain2 = { exMain with alpha := PyNum.num A, beta := PyNum.num B }) ∧
    determine_trainset exMain2 = .ok (exTrain, exMain2) :=
  (adoa_frame exMain).1 exTrain exMain2 exMain_run

/-- Witness for the C5 theorem at the concrete state `exMain`. -/
theorem trainset_shape_witness :
    ∃ A B, exMain2.alpha = PyNum.num A ∧ exMain2.beta = PyNum.num B ∧ B < A ∧
      (let ws := cal_weighted_score exMain
       let u := ws.drop exMain.anomalies.length
       let pttN := u.countP (fun q => decide (A ≤ q))
       let rlbN := u.countP (fun q => decide (q ≤ B))
       exTrain.1.length = exMain.anomalies.length + pttN + rlbN ∧
       exTrain.2.1.length = exTrain.1.length ∧
       exTrain.2.2.length = exTrain.1.length ∧
       (∀ q ∈ u, ¬(A ≤ q ∧ q ≤ B)) ∧
       exTrain.1 = exMain.anomalies ++
         ((exMain.unlabel.zip u).filter (fun q => decide (A ≤ q.2))).map Prod.fst ++
         ((exMain.unlabel.zip u).filter (fun q => decide (q.2 ≤ B))).map Prod.fst ∧
       exTrain.2.1 = List.replicate (exMain.anomalies.length + pttN) 1 ++
         List.replicate rlbN 0) :=
  trainset_shape exMain exTrain exMain2 rfl exMain_run

/-- Witness for the C6 theorem at the concrete state `exMain`. -/
theorem weights_shape_witness :
    ∃ A B, exMain2.alpha = PyNum.num A ∧ exMain2.beta = PyNum.num B ∧
      (let ws := cal_weighted_score exMain
       let u := ws.drop exMain.anomalies.length
       exTrain.2.2 = List.replicate exMain.anomalies.length (some 1) ++
         ((exMain.unlabel.zip u).filter (fun q => decide (A ≤ q.2))).map
           (fun q => npDiv q.2 (npMax ws)) ++
         ((exMain.unlabel.zip u).filter (fun q => decide (q.2 ≤ B))).map
           (fun q => npDiv (npMax ws - q.2) (npMax ws - npMin ws))) ∧
      ∀ w ∈ exTrain.2.2, ∃ q, w = some q ∧ 0 ≤ q ∧ q ≤ 1 :=
  weights_shape exMain exTrain exMain2
    (by show (0:ℚ) ≤ 17/20; norm_num)
    (by show (17:ℚ)/20 ≤ 1; norm_num)
    exMain_run
    (by rw [exMain_ws]; norm_num [npMin, npMax, min_def, max_def])

/-- Witness for the C7 theorem at the concrete state `exMain`, index 0. -/
theorem weighted_score_fusion_witness :
    (cal_weighted_score exMain)[0]? =
      some (exMain.theta * 1 + (1 - exMain.theta) * 0) ∧
    ((0:ℚ) ≤ 1 ∧ (1:ℚ) ≤ 1) ∧ ((0:ℚ) ≤ 0 ∧ (0:ℚ) ≤ 1) ∧
    ∀ arr, (dataset exMain)[0]? = some arr →
      (similarity_score exMain)[0]? =
        some (exMain.expf (-(minDistSq arr exMain.centers) / (arr.length : ℚ))) :=
  weighted_score_fusion exMain 0 1 0
    (by rw [exMain_iso]; rfl)
    (by rw [exMain_sim]; rfl)

/-- Witness for the C8 theorem at the concrete state `exMain`. -/
theorem auto_threshold_derivation_witness :
    exMain2.alpha = PyNum.num (specAlpha
      ((cal_weighted_score exMain).take exMain.anomalies.length)
      (cal_weighted_score exMain) exMain.gailv) ∧
    ∃ B, exMain2.beta = PyNum.num B ∧
      specBetaDerive (cal_weighted_score exMain)
        (specAlpha ((cal_weighted_score exMain).take exMain.anomalies.length)
          (cal_weighted_score exMain) exMain.gailv) exMain.percent = .ok B :=
  auto_threshold_derivation exMain exTrain exMain2 rfl exMain_run

/-- Witness for the C10 theorem: percent 45 (a positive multiple of 5)
terminates in the fallback on persistent high scores, percent 43 walks
past zero and raises the percentile range error. -/
theorem relaxation_loop_termination_witness :
    ((∃ b, betaLoop [(1:ℚ)] 1 (5 * (((8:ℕ) : ℚ) + 1)) 1 = .ok b) ∧
      ((1:ℚ) ≤ npMin [(1:ℚ)] → (1:ℚ) ≤ 1 →
        betaLoop [(1:ℚ)] 1 (5 * (((8:ℕ) : ℚ) + 1)) 1 = .ok (1 * (9 / 10)))) ∧
    betaLoop [(1:ℚ)] 1 43 1 = .error percentileRangeMsg := by
  constructor
  · exact relaxation_loop_termination.1 [(1:ℚ)] 1 1 8 (by simp) (by norm_num)
  · refine relaxation_loop_termination.2 [(1:ℚ)] 1 43 1 (by simp) ?_ (by norm_num)
      (by norm_num [npMin]) le_rfl
    intro j h
    have hj : (43:ℕ) = 5 * j := by exact_mod_cast h
    omega

/-- Witness for the C2 theorem at the concrete state `exMain`. -/
theorem threshold_derivation_completes_witness :
    ∃ t B, determine_trainset exMain =
        .ok (t, { exMain with
          alpha := PyNum.num (resolveAlpha exMain.alpha (cal_weighted_score exMain)
            exMain.anomalies.length exMain.gailv),
          beta := PyNum.num B }) ∧
      B < resolveAlpha exMain.alpha (cal_weighted_score exMain)
        exMain.anomalies.length exMain.gailv :=
  threshold_derivation_completes exMain
    ⟨8, by show (45:ℚ) = 5 * (((8:ℕ) : ℚ) + 1); norm_num⟩
    (by show (45:ℚ) ≤ 100; norm_num)
    (by rw [exMain_ws]; simp)
    (by show (0:ℚ) < resolveAlpha PyNum.auto (cal_weighted_score exMain) 2 1
        rw [exMain_ws, exMain_alpha]
        norm_num)

/-- Witness for the C9 theorem at the concrete state `exEmptyUnlabel`. -/
theorem empty_unlabel_silent_witness :
    (([[0], [1]], [1, 1], [some 1, some 1]) : TrainSet).1
        = exEmptyUnlabel.anomalies ∧
    (([[0], [1]], [1, 1], [some 1, some 1]) : TrainSet).2.1
        = List.replicate exEmptyUnlabel.anomalies.length 1 ∧
    (([[0], [1]], [1, 1], [some 1, some 1]) : TrainSet).2.2
        = List.replicate exEmptyUnlabel.anomalies.length (some 1) :=
  empty_unlabel_silent exEmptyUnlabel ([[0], [1]], [1, 1], [some 1, some 1])
    { exEmptyUnlabel with alpha := PyNum.num (1/4), beta := PyNum.num (1/5) }
    rfl exEmptyUnlabel_run
